import Mathlib

/-!
Shallow embedding of the vix::conversion library (headers under
include/vix/conversion): ASCII classification, trimming, the strict
base-10 integer parser, the boolean parser, the enum decoder, the
float-parse pipeline, and the decimal formatter.  Strings are modelled
as `List Char`; C++ fixed-width integer arithmetic is modelled on `Int`
(all intermediate values in the source stay in range, so no wraparound
occurs); C++ `/` on integers truncates toward zero, which is `Int.tdiv`.
The result type `expected` mirrors Expected.hpp.
-/

/-- Mirror of `vix::conversion::expected<T,E>`: value or error. -/
inductive expected (α : Type) (ε : Type) where
  | ok (value : α)
  | error (e : ε)
deriving DecidableEq, Repr

/-- Mirror of `ConversionErrorCode` (ConversionError.hpp). -/
inductive ConversionErrorCode where
  | None
  | EmptyInput
  | InvalidCharacter
  | TrailingCharacters
  | Overflow
  | Underflow
  | InvalidBoolean
  | UnknownEnumValue
  | InvalidFloat
deriving DecidableEq, Repr

/-- Mirror of `ConversionError`: code, input slice, position (default 0). -/
structure ConversionError where
  code : ConversionErrorCode
  input : List Char
  position : Nat := 0
deriving DecidableEq, Repr

/-- The error code carried by a result, if it is an error. -/
def errCode {α : Type} : expected α ConversionError → Option ConversionErrorCode
  | .ok _ => Option.none
  | .error e => Option.some e.code

/-- The input slice carried by a result's error, if it is an error. -/
def errInput {α : Type} : expected α ConversionError → Option (List Char)
  | .ok _ => Option.none
  | .error e => Option.some e.input

/-- Mirror of `detail::is_space` (Ascii.hpp). -/
def is_space (c : Char) : Bool :=
  c = ' ' || c = '\t' || c = '\n' || c = '\r' || c = '\x0c' || c = '\x0b'

/-- Mirror of `detail::is_digit` (Ascii.hpp). -/
def is_digit (c : Char) : Bool :=
  '0' ≤ c && c ≤ '9'

/-- Mirror of `detail::is_upper` (Ascii.hpp). -/
def is_upper (c : Char) : Bool :=
  'A' ≤ c && c ≤ 'Z'

/-- Mirror of `detail::to_lower` (Ascii.hpp): `c + ('a' - 'A')` on ASCII
uppercase, identity otherwise. -/
def to_lower (c : Char) : Char :=
  if is_upper c then Char.ofNat (c.toNat + 32) else c

/-- Mirror of `detail::ltrim` (Trim.hpp): drop leading ASCII whitespace. -/
def ltrim (s : List Char) : List Char :=
  s.dropWhile is_space

/-- Mirror of `detail::rtrim` (Trim.hpp): drop trailing ASCII whitespace. -/
def rtrim (s : List Char) : List Char :=
  (s.reverse.dropWhile is_space).reverse

/-- Mirror of `detail::trim` (Trim.hpp): `rtrim(ltrim(s))`. -/
def trim (s : List Char) : List Char :=
  rtrim (ltrim s)

/-- A C++ integral target type, characterised by signedness and its
representable range, as used by `parse_integer<Int>`
(`std::is_signed_v<Int>`, `Limits::min()`, `Limits::max()`). -/
structure IntType where
  signed : Bool
  min : Int
  max : Int
deriving DecidableEq, Repr

/-- The type `int` (32-bit signed) as instantiated by `to_int32`. -/
def int32T : IntType := ⟨true, -(2 ^ 31), 2 ^ 31 - 1⟩

/-- The type `std::int64_t` as instantiated by `to_int64`. -/
def int64T : IntType := ⟨true, -(2 ^ 63), 2 ^ 63 - 1⟩

/-- The type `unsigned` (32-bit) as instantiated by `to_uint32`. -/
def uint32T : IntType := ⟨false, 0, 2 ^ 32 - 1⟩

/-- The type `std::uint64_t` as instantiated by `to_uint64`. -/
def uint64T : IntType := ⟨false, 0, 2 ^ 64 - 1⟩

/-- The digit-accumulation loop of `detail::parse_integer`
(IntegerParse.hpp, the `for` loop and the `has_digit` check after it).
`orig` is the view the errors carry, `negative` the sign flag, `value`
and `has_digit` the loop state, `i` the current index. C++ division
truncates toward zero, hence `Int.tdiv`. -/
def digitLoop (t : IntType) (orig : List Char) (negative : Bool) :
    Int → Bool → Nat → List Char → expected Int ConversionError
  | value, has_digit, _, [] =>
      if has_digit then .ok value
      else .error ⟨.InvalidCharacter, orig, 0⟩
  | value, _, i, c :: rest =>
      if ¬ is_digit c then .error ⟨.InvalidCharacter, orig, i⟩
      else
        let digit : Int := (c.toNat : Int) - ('0'.toNat : Int)
        if t.signed then
          if negative then
            if value < (t.min + digit).tdiv 10 then
              .error ⟨.Underflow, orig, i⟩
            else digitLoop t orig negative (value * 10 - digit) true (i + 1) rest
          else
            if value > (t.max - digit).tdiv 10 then
              .error ⟨.Overflow, orig, i⟩
            else digitLoop t orig negative (value * 10 + digit) true (i + 1) rest
        else
          if negative then .error ⟨.Underflow, orig, 0⟩
          else if value > (t.max - digit).tdiv 10 then
            .error ⟨.Overflow, orig, i⟩
          else digitLoop t orig negative (value * 10 + digit) true (i + 1) rest

/-- Mirror of `detail::parse_integer<Int>` (IntegerParse.hpp): empty
check, optional sign (a sign with nothing after it is `InvalidCharacter`
at `i - 1 = 0`), then the digit loop. -/
def parse_integer (t : IntType) (input : List Char) : expected Int ConversionError :=
  match input with
  | [] => .error ⟨.EmptyInput, input, 0⟩
  | c :: rest =>
      if c = '+' || c = '-' then
        match rest with
        | [] => .error ⟨.InvalidCharacter, input, 0⟩
        | _ :: _ => digitLoop t input (c = '-') 0 false 1 rest
      else
        digitLoop t input false 0 false 0 input

/-- Mirror of `to_int<Int>` (ToInt.hpp): trim, empty check, parse the
trimmed view, and on failure rewrite the error's `input` to the original
untrimmed text (code and position are kept). -/
def to_int (t : IntType) (input : List Char) : expected Int ConversionError :=
  let trimmed := trim input
  if trimmed = [] then .error ⟨.EmptyInput, input, 0⟩
  else
    match parse_integer t trimmed with
    | .error e => .error ⟨e.code, input, e.position⟩
    | .ok v => .ok v

/-- Mirror of `to_int32` (ToInt.hpp). -/
def to_int32 (input : List Char) : expected Int ConversionError :=
  to_int int32T input

/-- Mirror of `to_uint32` (ToInt.hpp). -/
def to_uint32 (input : List Char) : expected Int ConversionError :=
  to_int uint32T input

/-- Mirror of `detail::iequals` (ToBool.hpp): same size and ASCII
case-insensitive character-by-character equality, phrased as direct
recursion on the two lists. -/
def iequals : List Char → List Char → Bool
  | [], [] => true
  | a :: as, b :: bs => (to_lower a = to_lower b) && iequals as bs
  | _, _ => false

/-- Mirror of `to_bool` (ToBool.hpp): trim, empty check, the truthy set
`{"1","true","yes","on"}` then the falsy set `{"0","false","no","off"}`
(digits compared exactly, keywords via `iequals`), else `InvalidBoolean`.
Errors carry the original untrimmed input. -/
def to_bool (input : List Char) : expected Bool ConversionError :=
  let s := trim input
  if s = [] then .error ⟨.EmptyInput, input, 0⟩
  else if s = ['1'] || iequals s ['t', 'r', 'u', 'e'] ||
      iequals s ['y', 'e', 's'] || iequals s ['o', 'n'] then .ok true
  else if s = ['0'] || iequals s ['f', 'a', 'l', 's', 'e'] ||
      iequals s ['n', 'o'] || iequals s ['o', 'f', 'f'] then .ok false
  else .error ⟨.InvalidBoolean, input, 0⟩

/-- Mirror of `EnumEntry<Enum>` (ToEnum.hpp). -/
structure EnumEntry (α : Type) where
  name : List Char
  value : α
deriving DecidableEq, Repr

/-- The inner character loop of `to_enum` (ToEnum.hpp): every character
matches under the chosen comparison mode (ASCII case-fold when
`case_insensitive`), phrased as direct recursion on the two lists. -/
def chars_match (case_insensitive : Bool) : List Char → List Char → Bool
  | [], [] => true
  | a :: as, b :: bs =>
      (if case_insensitive then to_lower a = to_lower b else a = b) &&
        chars_match case_insensitive as bs
  | _, _ => false

/-- The table scan of `to_enum` (ToEnum.hpp): skip entries whose name
length differs, otherwise compare characters; first match wins. -/
def enum_scan {α : Type} (orig s : List Char) (case_insensitive : Bool) :
    List (EnumEntry α) → expected α ConversionError
  | [] => .error ⟨.UnknownEnumValue, orig, 0⟩
  | e :: es =>
      if e.name.length = s.length && chars_match case_insensitive s e.name then
        .ok e.value
      else enum_scan orig s case_insensitive es

/-- Mirror of `to_enum<Enum>` (ToEnum.hpp): trim, empty check, scan the
caller-supplied table in order. -/
def to_enum {α : Type} (input : List Char) (entries : List (EnumEntry α))
    (case_insensitive : Bool := true) : expected α ConversionError :=
  let s := trim input
  if s = [] then .error ⟨.EmptyInput, input, 0⟩
  else enum_scan input s case_insensitive entries

/-- Output of the host floating-point lexing primitive
(`std::strtof/strtod/strtold`), which the spec treats as an external
collaborator: the produced value (modelled as a rational), the number of
characters consumed, and whether `errno` was set to `ERANGE`. -/
structure StrtodResult where
  value : Rat
  consumed : Nat
  erange : Bool

/-- Mirror of `detail::parse_float<Float>` (FloatParse.hpp), with the
host primitive abstracted as `prim` and the target type's
`lowest()`/`max()` as `lo`/`hi`: empty check; `InvalidFloat` when
nothing was consumed; `TrailingCharacters` (position = count consumed)
when the primitive stopped early; `ERANGE` classified as `Underflow`
when the produced value is exactly zero, else `Overflow`; final range
check against the target type; otherwise success. -/
def parse_float (lo hi : Rat) (prim : List Char → StrtodResult)
    (input : List Char) : expected Rat ConversionError :=
  if input = [] then .error ⟨.EmptyInput, input, 0⟩
  else
    let r := prim input
    if r.consumed = 0 then .error ⟨.InvalidFloat, input, 0⟩
    else if r.consumed ≠ input.length then
      .error ⟨.TrailingCharacters, input, r.consumed⟩
    else if r.erange then
      if r.value = 0 then .error ⟨.Underflow, input, 0⟩
      else .error ⟨.Overflow, input, 0⟩
    else if r.value < lo || hi < r.value then .error ⟨.Overflow, input, 0⟩
    else .ok r.value

/-- Mirror of `to_float<Float>` (ToFloat.hpp): trim, empty check, parse
the trimmed view, and on failure rewrite the error's `input` to the
original untrimmed text (code and position are kept). -/
def to_float (lo hi : Rat) (prim : List Char → StrtodResult)
    (input : List Char) : expected Rat ConversionError :=
  let trimmed := trim input
  if trimmed = [] then .error ⟨.EmptyInput, input, 0⟩
  else
    match parse_float lo hi prim trimmed with
    | .error e => .error ⟨e.code, input, e.position⟩
    | .ok v => .ok v

/-- The ASCII digit character for `d < 10` (value `'0' + d`). -/
def digitChar (d : Nat) : Char :=
  Char.ofNat ('0'.toNat + d)

/-- Big-endian decimal digits of a natural number, accumulator form:
the shape of the digit emission of `std::to_chars` used by
`to_string<Int>` (ToString.hpp). -/
def natToDigitsAux (n : Nat) (acc : List Char) : List Char :=
  if h : n < 10 then digitChar n :: acc
  else natToDigitsAux (n / 10) (digitChar (n % 10) :: acc)
  termination_by n
  decreasing_by
    exact Nat.div_lt_self (by omega) (by omega)

/-- Big-endian decimal digits of a natural number. -/
def natToDigits (n : Nat) : List Char :=
  natToDigitsAux n []

/-- Decimal rendering of an integer: the text `std::to_chars` produces
into the stack buffer of `to_string<Int>` (ToString.hpp) — minimal
decimal digits with a leading `-` for negative values. -/
def intToDecimal (n : Int) : List Char :=
  if n < 0 then '-' :: natToDigits n.natAbs else natToDigits n.toNat

/-- Mirror of `to_string<Int>` (ToString.hpp): decimal formatting via
the host `std::to_chars` into a 64-byte buffer, which cannot fail for
fixed-width integers, so the success branch is taken. -/
def to_string_int (n : Int) : expected (List Char) ConversionError :=
  .ok (intToDecimal n)

/-- Variant of `digitLoop` whose final `has_digit` branch (the
`if (!has_digit)` after the loop in IntegerParse.hpp) is replaced by a
sentinel error that no other site produces; used to express that the
branch is dead code. -/
def digitLoopAlt (t : IntType) (orig : List Char) (negative : Bool) :
    Int → Bool → Nat → List Char → expected Int ConversionError
  | value, has_digit, _, [] =>
      if has_digit then .ok value
      else .error ⟨.None, orig, 0⟩
  | value, _, i, c :: rest =>
      if ¬ is_digit c then .error ⟨.InvalidCharacter, orig, i⟩
      else
        let digit : Int := (c.toNat : Int) - ('0'.toNat : Int)
        if t.signed then
          if negative then
            if value < (t.min + digit).tdiv 10 then
              .error ⟨.Underflow, orig, i⟩
            else digitLoopAlt t orig negative (value * 10 - digit) true (i + 1) rest
          else
            if value > (t.max - digit).tdiv 10 then
              .error ⟨.Overflow, orig, i⟩
            else digitLoopAlt t orig negative (value * 10 + digit) true (i + 1) rest
        else
          if negative then .error ⟨.Underflow, orig, 0⟩
          else if value > (t.max - digit).tdiv 10 then
            .error ⟨.Overflow, orig, i⟩
          else digitLoopAlt t orig negative (value * 10 + digit) true (i + 1) rest

/-- Variant of `parse_integer` with the dead final branch replaced by the sentinel. -/
def parse_integer_alt (t : IntType) (input : List Char) : expected Int ConversionError :=
  match input with
  | [] => .error ⟨.EmptyInput, input, 0⟩
  | c :: rest =>
      if c = '+' || c = '-' then
        match rest with
        | [] => .error ⟨.InvalidCharacter, input, 0⟩
        | _ :: _ => digitLoopAlt t input (c = '-') 0 false 1 rest
      else
        digitLoopAlt t input false 0 false 0 input

/-- Modelled from the spec: a dummy host floating-point primitive, used
only to instantiate `to_float` at a concrete point. -/
def strtodDummy : List Char → StrtodResult :=
  fun _ => ⟨0, 0, false⟩

/-- Modelled from the spec: the host primitive's behaviour on
`"1e10000"` — the token is consumed entirely, `ERANGE` is set, and a
huge non-zero magnitude (`HUGE_VAL`) is produced. -/
def strtodHuge : List Char → StrtodResult :=
  fun s => ⟨2 ^ 1024, s.length, true⟩

/-- Modelled from the spec: the host primitive's behaviour on
`"1e-10000"` — the token is consumed entirely, `ERANGE` is set, and the
produced magnitude is exactly zero. -/
def strtodTiny : List Char → StrtodResult :=
  fun s => ⟨0, s.length, true⟩

/-- The value `DBL_MAX`, the largest finite double, as a rational. -/
def dblMax : Rat := (2 ^ 53 - 1) * 2 ^ 971

/-- The value `std::numeric_limits<double>::lowest()` as a rational. -/
def dblLowest : Rat := -dblMax

/-- Modelled from the spec: a host-primitive behaviour that consumes
exactly the three characters `"1.5"` of `"1.5x"` and stops there. -/
def strtodPartial : List Char → StrtodResult :=
  fun _ => ⟨3 / 2, 3, false⟩

/-- The four ASCII-lowercased spellings accepted as `true`. -/
def truthyTokens : List (List Char) :=
  [['1'], ['t', 'r', 'u', 'e'], ['y', 'e', 's'], ['o', 'n']]

/-- The four ASCII-lowercased spellings accepted as `false`. -/
def falsyTokens : List (List Char) :=
  [['0'], ['f', 'a', 'l', 's', 'e'], ['n', 'o'], ['o', 'f', 'f']]

/-- The claim-level match predicate for enum decoding: the entry's name
matches the (trimmed) input character-for-character under the chosen
comparison mode (`List.Forall₂` also forces the lengths to be equal). -/
def EMatch {α : Type} (ci : Bool) (s : List Char) (e : EnumEntry α) : Prop :=
  List.Forall₂ (fun a b => if ci then to_lower a = to_lower b else a = b) s e.name

/-- A sample enum mirroring the `Role` of the ToEnum.hpp example. -/
inductive Role where
  | admin
  | user
deriving DecidableEq, Repr

/-- The `{admin, user}` mapping table of the ToEnum.hpp example. -/
def roleTable : List (EnumEntry Role) :=
  [⟨['a', 'd', 'm', 'i', 'n'], .admin⟩, ⟨['u', 's', 'e', 'r'], .user⟩]

/-- The value accumulated by the positive (and unsigned) path of the
digit loop over a digit string, starting from `v`. -/
def valAcc (v : Int) (ds : List Char) : Int :=
  ds.foldl (fun a c => a * 10 + ((c.toNat : Int) - ('0'.toNat : Int))) v

/-- The value accumulated by the negative signed path of the digit
loop over a digit string, starting from `v`. -/
def valAccNeg (v : Int) (ds : List Char) : Int :=
  ds.foldl (fun a c => a * 10 - ((c.toNat : Int) - ('0'.toNat : Int))) v

theorem char_toNat_ofNat {n : Nat} (h : n.isValidChar) : (Char.ofNat n).toNat = n := by
  simp [Char.ofNat, h, Char.ofNatAux, Char.toNat, UInt32.toNat]

theorem char_eq_of_toNat {a b : Char} (h : a.toNat = b.toNat) : a = b :=
  Char.ext (UInt32.toNat.inj h)

theorem is_upper_iff {c : Char} : is_upper c = true ↔ 65 ≤ c.toNat ∧ c.toNat ≤ 90 := by
  simp [is_upper, Char.le_def]
  rfl

theorem is_digit_iff {c : Char} : is_digit c = true ↔ 48 ≤ c.toNat ∧ c.toNat ≤ 57 := by
  simp [is_digit, Char.le_def]
  rfl

theorem to_lower_toNat_of_upper {c : Char} (h : is_upper c = true) :
    (to_lower c).toNat = c.toNat + 32 := by
  rw [to_lower, if_pos h]
  have hb := is_upper_iff.mp h
  exact char_toNat_ofNat (Or.inl (by omega))

theorem to_lower_eq_self_of_not_upper {c : Char} (h : ¬ is_upper c = true) :
    to_lower c = c := by
  rw [to_lower, if_neg h]

theorem to_lower_eq_digit {c d : Char} (hd : 48 ≤ d.toNat) (hd2 : d.toNat ≤ 57) :
    to_lower c = d ↔ c = d := by
  constructor
  · intro h
    by_cases hu : is_upper c = true
    · exfalso
      have h1 := to_lower_toNat_of_upper hu
      have h2 := is_upper_iff.mp hu
      rw [h] at h1
      omega
    · rw [to_lower, if_neg hu] at h
      exact h
  · intro h
    subst h
    rw [to_lower, if_neg]
    intro hu
    have h2 := is_upper_iff.mp hu
    omega

/-- C1: for the 32-bit signed target, `"2147483647"` parses to
`2147483647` and `"2147483648"` overflows; symmetrically
`"-2147483648"` parses to the minimum and `"-2147483649"` underflows. -/
theorem int32_overflow_boundary :
    to_int32 ['2', '1', '4', '7', '4', '8', '3', '6', '4', '7'] = .ok 2147483647 ∧
    errCode (to_int32 ['2', '1', '4', '7', '4', '8', '3', '6', '4', '8']) =
      Option.some ConversionErrorCode.Overflow ∧
    to_int32 ['-', '2', '1', '4', '7', '4', '8', '3', '6', '4', '8'] = .ok (-2147483648) ∧
    errCode (to_int32 ['-', '2', '1', '4', '7', '4', '8', '3', '6', '4', '9']) =
      Option.some ConversionErrorCode.Underflow :=
  ⟨by decide, by decide, by decide, by decide⟩

/-- C2 counterexample: for the unsigned 32-bit target, the input
`"-a"` is trimmed to a string beginning with `-`, yet the error kind is
`InvalidCharacter` (raised by the in-loop digit check at index 1), not
`Underflow`: the unsigned `-` rejection only fires at the first digit. -/
theorem unsigned_minus_not_always_underflow :
    errCode (to_uint32 ['-', 'a']) = Option.some ConversionErrorCode.InvalidCharacter ∧
    errCode (to_uint32 ['-', 'a']) ≠ Option.some ConversionErrorCode.Underflow :=
  ⟨by decide, by decide⟩

/-- C2 amended: for every unsigned target, an input whose trimmed form
begins with `-` followed immediately by a digit is rejected with
`Underflow` at position 0; a `-` followed by a non-digit (or by nothing)
is rejected by the earlier character checks instead. -/
theorem to_int_unsigned_minus_underflow (t : IntType) (s : List Char)
    (c : Char) (cs : List Char) (hu : t.signed = false)
    (h : trim s = '-' :: c :: cs) (hc : is_digit c = true) :
    to_int t s = .error ⟨.Underflow, s, 0⟩ := by
  simp only [to_int, h, parse_integer, digitLoop, hc, hu]
  simp

/-- C2 amended, witness: `to_uint32 "-5"` underflows at position 0. -/
theorem to_int_unsigned_minus_underflow_witness :
    to_uint32 ['-', '5'] = .error ⟨.Underflow, ['-', '5'], 0⟩ :=
  to_int_unsigned_minus_underflow uint32T ['-', '5'] '5' [] (by decide)
    (by decide) (by decide)

theorem digitLoop_eq_alt (t : IntType) (orig : List Char) (neg : Bool) :
    ∀ (ds : List Char) (v : Int) (hd : Bool) (i : Nat), (hd = true ∨ ds ≠ []) →
      digitLoop t orig neg v hd i ds = digitLoopAlt t orig neg v hd i ds
  | [], v, hd, _, h => by
      cases h with
      | inl h => subst h; rfl
      | inr h => exact absurd rfl h
  | c :: rest, v, hd, i, _ => by
      have ih : ∀ (w : Int) (j : Nat),
          digitLoop t orig neg w true j rest = digitLoopAlt t orig neg w true j rest :=
        fun w j => digitLoop_eq_alt t orig neg rest w true j (Or.inl rfl)
      simp only [digitLoop, digitLoopAlt]
      split_ifs <;> simp [ih]

/-- C10: the final `InvalidCharacter` branch after the digit loop of
`parse_integer` (reached only when `has_digit` is still false) is dead
code for every non-empty input: replacing it by a sentinel error does
not change the function. -/
theorem parse_integer_final_branch_unreachable (t : IntType) (input : List Char)
    (h : input ≠ []) : parse_integer t input = parse_integer_alt t input := by
  match input with
  | [] => exact absurd rfl h
  | c :: rest =>
      simp only [parse_integer, parse_integer_alt]
      by_cases hs : (c = '+' || c = '-') = true
      · rw [if_pos hs, if_pos hs]
        match rest with
        | [] => rfl
        | c2 :: cs =>
            exact digitLoop_eq_alt t (c :: c2 :: cs) _ (c2 :: cs) 0 false 1 (Or.inr (by simp))
      · rw [if_neg hs, if_neg hs]
        exact digitLoop_eq_alt t (c :: rest) false (c :: rest) 0 false 0 (Or.inr (by simp))

/-- C10 witness: on the concrete non-empty input `"7"` the two parsers
agree. -/
theorem parse_integer_final_branch_unreachable_witness :
    parse_integer int32T ['7'] = parse_integer_alt int32T ['7'] :=
  parse_integer_final_branch_unreachable int32T ['7'] (by decide)

/-- C6: every parser rejects input that is empty after ASCII trimming
with `EmptyInput`: the boolean, integer (any target type) and float
(any target width, any host primitive) entry points all fail the same
way before touching the payload. -/
theorem empty_input_all_parsers (t : IntType) (lo hi : Rat)
    (prim : List Char → StrtodResult) (s : List Char) (h : trim s = []) :
    to_bool s = .error ⟨.EmptyInput, s, 0⟩ ∧
    to_int t s = .error ⟨.EmptyInput, s, 0⟩ ∧
    to_float lo hi prim s = .error ⟨.EmptyInput, s, 0⟩ := by
  refine ⟨?_, ?_, ?_⟩ <;> simp [to_bool, to_int, to_float, h]

/-- C6 witness: the three-space input is rejected with `EmptyInput` by
all three parsers (here at the 32-bit signed target and a dummy host
primitive). -/
theorem empty_input_all_parsers_witness :
    to_bool [' ', ' ', ' '] = .error ⟨.EmptyInput, [' ', ' ', ' '], 0⟩ ∧
    to_int int32T [' ', ' ', ' '] = .error ⟨.EmptyInput, [' ', ' ', ' '], 0⟩ ∧
    to_float 0 1 strtodDummy [' ', ' ', ' '] =
      .error ⟨.EmptyInput, [' ', ' ', ' '], 0⟩ :=
  empty_input_all_parsers int32T 0 1 strtodDummy [' ', ' ', ' '] (by decide)

/-- C7: when the host primitive consumes the whole trimmed input and
reports a range error, `to_float` classifies the failure as `Underflow`
exactly when the produced value is zero, and `Overflow` otherwise. -/
theorem float_erange_classification (lo hi : Rat)
    (prim : List Char → StrtodResult) (s : List Char) (h1 : trim s ≠ [])
    (h2 : (prim (trim s)).consumed = (trim s).length)
    (h3 : (prim (trim s)).erange = true) :
    to_float lo hi prim s =
      .error ⟨if (prim (trim s)).value = 0 then .Underflow else .Overflow, s, 0⟩ := by
  have hc0 : (prim (trim s)).consumed ≠ 0 := by
    rw [h2]
    simpa using h1
  by_cases hv : (prim (trim s)).value = 0 <;>
    simp [to_float, parse_float, h1, h2, h3, hc0, hv]

/-- C7 witness: `to_float64("1e10000")` yields `Overflow` and
`to_float64("1e-10000")` yields `Underflow` under the modelled host
primitive behaviours. -/
theorem float_erange_classification_witness :
    to_float dblLowest dblMax strtodHuge ['1', 'e', '1', '0', '0', '0', '0'] =
      .error ⟨.Overflow, ['1', 'e', '1', '0', '0', '0', '0'], 0⟩ ∧
    to_float dblLowest dblMax strtodTiny ['1', 'e', '-', '1', '0', '0', '0', '0'] =
      .error ⟨.Underflow, ['1', 'e', '-', '1', '0', '0', '0', '0'], 0⟩ := by
  constructor
  · rw [float_erange_classification dblLowest dblMax strtodHuge
      ['1', 'e', '1', '0', '0', '0', '0'] (by decide) (by decide) (by decide)]
    norm_num [strtodHuge]
  · rw [float_erange_classification dblLowest dblMax strtodTiny
      ['1', 'e', '-', '1', '0', '0', '0', '0'] (by decide) (by decide) (by decide)]
    norm_num [strtodTiny]

/-- C8: when the host primitive consumes at least one but fewer
characters than the whole trimmed input, `to_float` fails with
`TrailingCharacters` and the position equals the number of characters
consumed. -/
theorem float_trailing_characters (lo hi : Rat)
    (prim : List Char → StrtodResult) (s : List Char) (h1 : trim s ≠ [])
    (h2 : 0 < (prim (trim s)).consumed)
    (h3 : (prim (trim s)).consumed < (trim s).length) :
    to_float lo hi prim s =
      .error ⟨.TrailingCharacters, s, (prim (trim s)).consumed⟩ := by
  have hc0 : (prim (trim s)).consumed ≠ 0 := by omega
  have hne : (prim (trim s)).consumed ≠ (trim s).length := by omega
  simp [to_float, parse_float, h1, hc0, hne]

/-- C8 witness: on `"1.5x"` with a primitive that consumes three
characters, the error is `TrailingCharacters` at position 3. -/
theorem float_trailing_characters_witness :
    to_float 0 2 strtodPartial ['1', '.', '5', 'x'] =
      .error ⟨.TrailingCharacters, ['1', '.', '5', 'x'], 3⟩ :=
  float_trailing_characters 0 2 strtodPartial ['1', '.', '5', 'x']
    (by decide) (by decide) (by decide)

theorem enum_scan_error_input {α : Type} (orig s : List Char) (ci : Bool) :
    ∀ (es : List (EnumEntry α)) (err : ConversionError),
      enum_scan orig s ci es = .error err → err.input = orig
  | [], err => by
      intro h
      simp only [enum_scan] at h
      cases h
      rfl
  | e :: es, err => by
      intro h
      simp only [enum_scan] at h
      by_cases hm : (e.name.length = s.length && chars_match ci s e.name) = true
      · rw [if_pos hm] at h
        cases h
      · rw [if_neg hm] at h
        exact enum_scan_error_input orig s ci es err h

/-- C9: the error surfaced by `to_int` and `to_float` is exactly the
inner parser's error with only its `input` field rewritten to the
original untrimmed text (code and position are preserved, the position
staying relative to the trimmed string); `to_bool` and `to_enum`
likewise always report the original untrimmed input in their errors. -/
theorem error_input_rewritten :
    (∀ (t : IntType) (s : List Char),
      to_int t s = match parse_integer t (trim s) with
        | .error e => .error ⟨e.code, s, e.position⟩
        | .ok v => .ok v) ∧
    (∀ (lo hi : Rat) (prim : List Char → StrtodResult) (s : List Char),
      to_float lo hi prim s = match parse_float lo hi prim (trim s) with
        | .error e => .error ⟨e.code, s, e.position⟩
        | .ok v => .ok v) ∧
    (∀ (s : List Char) (err : ConversionError),
      to_bool s = .error err → err.input = s) ∧
    (∀ (α : Type) (inp : List Char) (es : List (EnumEntry α)) (ci : Bool)
      (err : ConversionError), to_enum inp es ci = .error err → err.input = inp) := by
  refine ⟨?_, ?_, ?_, ?_⟩
  · intro t s
    by_cases h : trim s = [] <;> simp [to_int, parse_integer, h]
  · intro lo hi prim s
    by_cases h : trim s = [] <;> simp [to_float, parse_float, h]
  · intro s err h
    simp only [to_bool] at h
    split_ifs at h <;> simp_all
    all_goals rw [← h]
  · intro α inp es ci err h
    simp only [to_enum] at h
    split_ifs at h with he
    · cases h
      rfl
    · exact enum_scan_error_input inp (trim inp) ci es err h

/-- C9 witness: the `InvalidBoolean` error for the concrete input
`"x"` carries that original input. -/
theorem error_input_rewritten_witness :
    (⟨.InvalidBoolean, ['x'], 0⟩ : ConversionError).input = ['x'] :=
  error_input_rewritten.2.2.1 ['x'] ⟨.InvalidBoolean, ['x'], 0⟩ (by decide)

theorem iequals_iff : ∀ (a b : List Char),
    iequals a b = true ↔ a.map to_lower = b.map to_lower
  | [], [] => by simp [iequals]
  | [], _ :: _ => by simp [iequals]
  | _ :: _, [] => by simp [iequals]
  | a :: as, b :: bs => by
      simp [iequals, iequals_iff as bs]

theorem map_to_lower_singleton_digit (s : List Char) (d : Char)
    (h1 : 48 ≤ d.toNat) (h2 : d.toNat ≤ 57) :
    s.map to_lower = [d] ↔ s = [d] := by
  cases s with
  | nil => simp
  | cons c cs =>
      simp only [List.map_cons, List.cons.injEq, List.map_eq_nil_iff]
      rw [to_lower_eq_digit h1 h2]

theorem to_bool_truthy_cond (s : List Char) :
    (s = ['1'] || iequals s ['t', 'r', 'u', 'e'] ||
      iequals s ['y', 'e', 's'] || iequals s ['o', 'n']) = true ↔
    s.map to_lower ∈ truthyTokens := by
  have h1 := map_to_lower_singleton_digit s '1' (by decide) (by decide)
  simp only [truthyTokens, List.mem_cons, List.not_mem_nil, or_false,
    List.mem_singleton, Bool.or_eq_true, decide_eq_true_eq,
    iequals_iff s]
  rw [← h1]
  norm_num
  tauto

theorem to_bool_falsy_cond (s : List Char) :
    (s = ['0'] || iequals s ['f', 'a', 'l', 's', 'e'] ||
      iequals s ['n', 'o'] || iequals s ['o', 'f', 'f']) = true ↔
    s.map to_lower ∈ falsyTokens := by
  have h0 := map_to_lower_singleton_digit s '0' (by decide) (by decide)
  simp only [falsyTokens, List.mem_cons, List.not_mem_nil, or_false,
    List.mem_singleton, Bool.or_eq_true, decide_eq_true_eq,
    iequals_iff s]
  rw [← h0]
  norm_num
  tauto

theorem truthy_falsy_disjoint (x : List Char) (h : x ∈ truthyTokens) :
    x ∉ falsyTokens := by
  simp only [truthyTokens, List.mem_cons, List.not_mem_nil, or_false,
    List.mem_singleton] at h
  rcases h with h | h | h | h <;> subst h <;> decide

/-- C4: after trimming, `to_bool` accepts exactly the eight tokens
`1,0,true,false,yes,no,on,off` compared ASCII-case-insensitively
(membership of the ASCII-lowercased trimmed input in the two token
sets), mapping the truthy four to `Ok(true)` and the falsy four to
`Ok(false)`; every other non-empty trimmed input yields
`InvalidBoolean`. In particular `to_bool(" TRUE ")` is `Ok(true)` and
`to_bool("truee")` is an `InvalidBoolean` error. -/
theorem to_bool_acceptance (input : List Char) :
    (to_bool input = .ok true ↔ (trim input).map to_lower ∈ truthyTokens) ∧
    (to_bool input = .ok false ↔ (trim input).map to_lower ∈ falsyTokens) ∧
    (trim input ≠ [] →
      (trim input).map to_lower ∉ truthyTokens →
      (trim input).map to_lower ∉ falsyTokens →
      to_bool input = .error ⟨.InvalidBoolean, input, 0⟩) ∧
    to_bool [' ', 'T', 'R', 'U', 'E', ' '] = .ok true ∧
    to_bool ['t', 'r', 'u', 'e', 'e'] =
      .error ⟨.InvalidBoolean, ['t', 'r', 'u', 'e', 'e'], 0⟩ := by
  refine ⟨?_, ?_, ?_, by decide, by decide⟩
  · by_cases hemp : trim input = []
    · simp [to_bool, hemp, truthyTokens]
    · by_cases hc1 : (trim input = ['1'] || iequals (trim input) ['t', 'r', 'u', 'e'] ||
          iequals (trim input) ['y', 'e', 's'] || iequals (trim input) ['o', 'n']) = true
      · simp only [to_bool, hemp, if_neg hemp, hc1, if_true, if_pos hc1]
        simp [(to_bool_truthy_cond (trim input)).mp hc1]
      · have hnot := (to_bool_truthy_cond (trim input)).not.mp (by simpa using hc1)
        simp only [to_bool, if_neg hemp, hc1, if_false]
        split_ifs <;> simp_all
  · by_cases hemp : trim input = []
    · simp [to_bool, hemp, falsyTokens]
    · by_cases hc1 : (trim input = ['1'] || iequals (trim input) ['t', 'r', 'u', 'e'] ||
          iequals (trim input) ['y', 'e', 's'] || iequals (trim input) ['o', 'n']) = true
      · have ht := (to_bool_truthy_cond (trim input)).mp hc1
        have hnf := truthy_falsy_disjoint _ ht
        simp only [to_bool, if_neg hemp, hc1, if_true]
        simp [hnf]
      · by_cases hc2 : (trim input = ['0'] || iequals (trim input) ['f', 'a', 'l', 's', 'e'] ||
            iequals (trim input) ['n', 'o'] || iequals (trim input) ['o', 'f', 'f']) = true
        · simp only [to_bool, if_neg hemp, hc1, if_false, hc2, if_true]
          simp [(to_bool_falsy_cond (trim input)).mp hc2]
        · have hnot := (to_bool_falsy_cond (trim input)).not.mp (by simpa using hc2)
          simp only [to_bool, if_neg hemp, hc1, hc2, if_false]
          simp [hnot]
  · intro hemp hnt hnf
    have hc1 : ¬ (trim input = ['1'] || iequals (trim input) ['t', 'r', 'u', 'e'] ||
        iequals (trim input) ['y', 'e', 's'] || iequals (trim input) ['o', 'n']) = true :=
      fun h => hnt ((to_bool_truthy_cond (trim input)).mp h)
    have hc2 : ¬ (trim input = ['0'] || iequals (trim input) ['f', 'a', 'l', 's', 'e'] ||
        iequals (trim input) ['n', 'o'] || iequals (trim input) ['o', 'f', 'f']) = true :=
      fun h => hnf ((to_bool_falsy_cond (trim input)).mp h)
    simp only [to_bool, if_neg hemp, hc1, hc2, if_false]
    simp

theorem chars_match_iff (ci : Bool) : ∀ (a b : List Char),
    chars_match ci a b = true ↔
      List.Forall₂ (fun x y => if ci then to_lower x = to_lower y else x = y) a b
  | [], [] => by simp [chars_match]
  | [], _ :: _ => by simp [chars_match]
  | _ :: _, [] => by simp [chars_match]
  | a :: as, b :: bs => by
      cases ci with
      | false => simp [chars_match, chars_match_iff false as bs, List.forall₂_cons]
      | true => simp [chars_match, chars_match_iff true as bs, List.forall₂_cons]

theorem ematch_iff_guard {α : Type} (ci : Bool) (s : List Char) (e : EnumEntry α) :
    (e.name.length = s.length && chars_match ci s e.name) = true ↔ EMatch ci s e := by
  simp only [EMatch, Bool.and_eq_true, decide_eq_true_eq, chars_match_iff]
  constructor
  · rintro ⟨-, h⟩
    exact h
  · intro h
    exact ⟨(List.Forall₂.length_eq h).symm, h⟩

theorem enum_scan_ok_iff {α : Type} (orig s : List Char) (ci : Bool) :
    ∀ (es : List (EnumEntry α)) (v : α),
      enum_scan orig s ci es = .ok v ↔
        ∃ (k : Nat) (hk : k < es.length),
          (es.get ⟨k, hk⟩).value = v ∧ EMatch ci s (es.get ⟨k, hk⟩) ∧
          ∀ (j : Nat) (hj : j < k), ¬ EMatch ci s (es.get ⟨j, Nat.lt_trans hj hk⟩)
  | [], v => by simp [enum_scan]
  | e :: es, v => by
      by_cases hg : (e.name.length = s.length && chars_match ci s e.name) = true
      · have hm : EMatch ci s e := (ematch_iff_guard ci s e).mp hg
        simp only [enum_scan, if_pos hg]
        constructor
        · intro h
          cases h
          exact ⟨0, by simp, rfl, hm, fun j hj => absurd hj (by omega)⟩
        · rintro ⟨k, hk, hv, hkm, hfirst⟩
          match k with
          | 0 =>
              simp only [List.get] at hv
              rw [← hv]
          | k + 1 => exact absurd hm (hfirst 0 (by omega))
      · have hm : ¬ EMatch ci s e := fun h => hg ((ematch_iff_guard ci s e).mpr h)
        simp only [enum_scan, if_neg hg]
        rw [enum_scan_ok_iff orig s ci es v]
        constructor
        · rintro ⟨k, hk, hv, hkm, hfirst⟩
          refine ⟨k + 1, Nat.succ_lt_succ hk, by simpa using hv, by simpa using hkm, ?_⟩
          intro j hj
          match j with
          | 0 => simpa using hm
          | j + 1 =>
              have := hfirst j (by omega)
              simpa using this
        · rintro ⟨k, hk, hv, hkm, hfirst⟩
          match k with
          | 0 => exact absurd (by simpa using hkm) hm
          | k + 1 =>
              refine ⟨k, Nat.lt_of_succ_lt_succ hk, by simpa using hv, by simpa using hkm, ?_⟩
              intro j hj
              have := hfirst (j + 1) (by omega)
              simpa using this

theorem enum_scan_none {α : Type} (orig s : List Char) (ci : Bool) :
    ∀ (es : List (EnumEntry α)), (∀ e ∈ es, ¬ EMatch ci s e) →
      enum_scan orig s ci es = .error ⟨.UnknownEnumValue, orig, 0⟩
  | [], _ => rfl
  | e :: es, hall => by
      have hg : ¬ (e.name.length = s.length && chars_match ci s e.name) = true :=
        fun h => hall e (by simp) ((ematch_iff_guard ci s e).mp h)
      simp only [enum_scan, if_neg hg]
      exact enum_scan_none orig s ci es (fun x hx => hall x (by simp [hx]))

/-- C5: on non-empty trimmed input, `to_enum` returns `Ok(v)` exactly
when some entry at position `k` is the first (in table order) whose name
matches the trimmed input under the chosen comparison mode and its value
is `v` — so with duplicate names the first match by position wins — and
returns `UnknownEnumValue` when no entry matches. -/
theorem to_enum_first_match (α : Type) (input : List Char)
    (es : List (EnumEntry α)) (ci : Bool) (hne : trim input ≠ []) :
    (∀ v : α, to_enum input es ci = .ok v ↔
      ∃ (k : Nat) (hk : k < es.length),
        (es.get ⟨k, hk⟩).value = v ∧ EMatch ci (trim input) (es.get ⟨k, hk⟩) ∧
        ∀ (j : Nat) (hj : j < k),
          ¬ EMatch ci (trim input) (es.get ⟨j, Nat.lt_trans hj hk⟩)) ∧
    ((∀ e ∈ es, ¬ EMatch ci (trim input) e) →
      to_enum input es ci = .error ⟨.UnknownEnumValue, input, 0⟩) := by
  constructor
  · intro v
    simp only [to_enum, if_neg hne]
    exact enum_scan_ok_iff input (trim input) ci es v
  · intro hall
    simp only [to_enum, if_neg hne]
    exact enum_scan_none input (trim input) ci es hall

/-- C5 witness: decoding `"ADMIN"` against `{admin, user}` in
case-sensitive mode yields `UnknownEnumValue`, while the default
case-insensitive mode finds `admin` first. -/
theorem to_enum_first_match_witness :
    to_enum ['A', 'D', 'M', 'I', 'N'] roleTable false =
      .error ⟨.UnknownEnumValue, ['A', 'D', 'M', 'I', 'N'], 0⟩ ∧
    to_enum ['A', 'D', 'M', 'I', 'N'] roleTable true = .ok Role.admin := by
  constructor
  · refine (to_enum_first_match Role ['A', 'D', 'M', 'I', 'N'] roleTable false
      (by decide)).2 ?_
    intro e he hm
    have hc := (chars_match_iff false (trim ['A', 'D', 'M', 'I', 'N']) e.name).mpr hm
    simp only [roleTable, List.mem_cons, List.not_mem_nil, or_false,
      List.mem_singleton] at he
    rcases he with rfl | rfl <;> revert hc <;> decide
  · refine ((to_enum_first_match Role ['A', 'D', 'M', 'I', 'N'] roleTable true
      (by decide)).1 Role.admin).mpr ?_
    refine ⟨0, by simp [roleTable], rfl, ?_, ?_⟩
    · exact (chars_match_iff true _ _).mp (by decide)
    · intro j hj
      omega

theorem tdiv_ge_of_mul_le {a v : Int} (hv : 0 ≤ v) (h : 10 * v ≤ a) :
    v ≤ a.tdiv 10 := by
  have ha : (0 : Int) ≤ a := le_trans (by positivity) h
  rw [Int.tdiv_eq_ediv ha (by norm_num)]
  rw [Int.le_ediv_iff_mul_le (by norm_num : (0 : Int) < 10)]
  linarith

theorem tdiv_le_of_le_mul {a v : Int} (hv : v ≤ 0) (h : a ≤ 10 * v) :
    a.tdiv 10 ≤ v := by
  have h2 : 10 * (-v) ≤ -a := by linarith
  have h3 := tdiv_ge_of_mul_le (by linarith : (0 : Int) ≤ -v) h2
  rw [Int.neg_tdiv] at h3
  linarith

theorem digit_val_bounds {c : Char} (hc : is_digit c = true) :
    0 ≤ (c.toNat : Int) - ('0'.toNat : Int) ∧
      (c.toNat : Int) - ('0'.toNat : Int) ≤ 9 := by
  have hb := is_digit_iff.mp hc
  have h0 : ('0'.toNat : Int) = 48 := rfl
  omega

theorem valAcc_nil (v : Int) : valAcc v [] = v := rfl

theorem valAcc_cons (v : Int) (c : Char) (ds : List Char) :
    valAcc v (c :: ds) =
      valAcc (v * 10 + ((c.toNat : Int) - ('0'.toNat : Int))) ds := rfl

theorem valAccNeg_cons (v : Int) (c : Char) (ds : List Char) :
    valAccNeg v (c :: ds) =
      valAccNeg (v * 10 - ((c.toNat : Int) - ('0'.toNat : Int))) ds := rfl

theorem valAcc_ge : ∀ (ds : List Char) (v : Int), 0 ≤ v →
    (∀ c ∈ ds, is_digit c = true) → v ≤ valAcc v ds
  | [], v, _, _ => le_refl v
  | c :: ds, v, hv, h => by
      have hdb := digit_val_bounds (h c (by simp))
      have hv2 : 0 ≤ v * 10 + ((c.toNat : Int) - ('0'.toNat : Int)) := by nlinarith
      calc v ≤ v * 10 + ((c.toNat : Int) - ('0'.toNat : Int)) := by nlinarith
        _ ≤ valAcc (v * 10 + ((c.toNat : Int) - ('0'.toNat : Int))) ds :=
            valAcc_ge ds _ hv2 (fun x hx => h x (by simp [hx]))

theorem valAccNeg_le : ∀ (ds : List Char) (v : Int), v ≤ 0 →
    (∀ c ∈ ds, is_digit c = true) → valAccNeg v ds ≤ v
  | [], v, _, _ => le_refl v
  | c :: ds, v, hv, h => by
      have hdb := digit_val_bounds (h c (by simp))
      have hv2 : v * 10 - ((c.toNat : Int) - ('0'.toNat : Int)) ≤ 0 := by nlinarith
      calc valAccNeg v (c :: ds)
          = valAccNeg (v * 10 - ((c.toNat : Int) - ('0'.toNat : Int))) ds := rfl
        _ ≤ v * 10 - ((c.toNat : Int) - ('0'.toNat : Int)) :=
            valAccNeg_le ds _ hv2 (fun x hx => h x (by simp [hx]))
        _ ≤ v := by nlinarith

theorem valAccNeg_eq_neg : ∀ (ds : List Char) (v : Int),
    valAccNeg v ds = -valAcc (-v) ds
  | [], v => by simp [valAccNeg, valAcc]
  | c :: ds, v => by
      rw [valAccNeg_cons, valAcc_cons, valAccNeg_eq_neg ds _]
      congr 2
      ring

theorem digitLoop_pos_ok (t : IntType) (orig : List Char) :
    ∀ (ds : List Char) (v : Int) (hd : Bool) (i : Nat),
      (∀ c ∈ ds, is_digit c = true) → 0 ≤ v → valAcc v ds ≤ t.max →
      (hd = true ∨ ds ≠ []) →
      digitLoop t orig false v hd i ds = .ok (valAcc v ds)
  | [], v, hd, i, _, _, _, hne => by
      rcases hne with h | h
      · subst h
        rfl
      · exact absurd rfl h
  | c :: ds, v, hd, i, hdig, hv, hle, _ => by
      have hc := hdig c (by simp)
      have hdb := digit_val_bounds hc
      rw [valAcc_cons] at hle ⊢
      have hv2 : 0 ≤ v * 10 + ((c.toNat : Int) - ('0'.toNat : Int)) := by nlinarith
      have hvle : v * 10 + ((c.toNat : Int) - ('0'.toNat : Int)) ≤ t.max :=
        le_trans (valAcc_ge ds _ hv2 (fun x hx => hdig x (by simp [hx]))) hle
      have hcheck : ¬ v > (t.max - ((c.toNat : Int) - ('0'.toNat : Int))).tdiv 10 := by
        rw [not_lt]
        exact tdiv_ge_of_mul_le hv (by linarith)
      have hrec := digitLoop_pos_ok t orig ds
        (v * 10 + ((c.toNat : Int) - ('0'.toNat : Int))) true (i + 1)
        (fun x hx => hdig x (by simp [hx])) hv2 hle (Or.inl rfl)
      have h48 : ('0'.toNat : Int) = 48 := rfl
      rw [h48] at hcheck hrec
      cases ht : t.signed with
      | true => simp [digitLoop, hc, ht, h48, hcheck, hrec]
      | false => simp [digitLoop, hc, ht, h48, hcheck, hrec]

theorem digitLoop_neg_ok (t : IntType) (orig : List Char) (hsg : t.signed = true) :
    ∀ (ds : List Char) (v : Int) (hd : Bool) (i : Nat),
      (∀ c ∈ ds, is_digit c = true) → v ≤ 0 → t.min ≤ valAccNeg v ds →
      (hd = true ∨ ds ≠ []) →
      digitLoop t orig true v hd i ds = .ok (valAccNeg v ds)
  | [], v, hd, i, _, _, _, hne => by
      rcases hne with h | h
      · subst h
        rfl
      · exact absurd rfl h
  | c :: ds, v, hd, i, hdig, hv, hle, _ => by
      have hc := hdig c (by simp)
      have hdb := digit_val_bounds hc
      rw [valAccNeg_cons] at hle ⊢
      have hv2 : v * 10 - ((c.toNat : Int) - ('0'.toNat : Int)) ≤ 0 := by nlinarith
      have hvge : t.min ≤ v * 10 - ((c.toNat : Int) - ('0'.toNat : Int)) :=
        le_trans hle (valAccNeg_le ds _ hv2 (fun x hx => hdig x (by simp [hx])))
      have hcheck : ¬ v < (t.min + ((c.toNat : Int) - ('0'.toNat : Int))).tdiv 10 := by
        rw [not_lt]
        exact tdiv_le_of_le_mul hv (by linarith)
      have hrec := digitLoop_neg_ok t orig hsg ds
        (v * 10 - ((c.toNat : Int) - ('0'.toNat : Int))) true (i + 1)
        (fun x hx => hdig x (by simp [hx])) hv2 hle (Or.inl rfl)
      have h48 : ('0'.toNat : Int) = 48 := rfl
      rw [h48] at hcheck hrec
      simp [digitLoop, hc, hsg, h48, hcheck, hrec]

theorem digitChar_toNat {d : Nat} (h : d < 10) : (digitChar d).toNat = 48 + d := by
  interval_cases d <;> decide

theorem digitChar_is_digit {d : Nat} (h : d < 10) : is_digit (digitChar d) = true := by
  interval_cases d <;> decide

theorem natToDigitsAux_append (n : Nat) : ∀ (acc : List Char),
    natToDigitsAux n acc = natToDigitsAux n [] ++ acc := by
  induction n using Nat.strong_induction_on with
  | _ n ih =>
    intro acc
    by_cases h : n < 10
    · unfold natToDigitsAux
      simp [h]
    · have hlt : n / 10 < n := Nat.div_lt_self (by omega) (by omega)
      unfold natToDigitsAux
      simp only [h, dite_false, dif_neg]
      rw [ih _ hlt (digitChar (n % 10) :: acc), ih _ hlt [digitChar (n % 10)]]
      simp

theorem natToDigits_lt {n : Nat} (h : n < 10) : natToDigits n = [digitChar n] := by
  unfold natToDigits natToDigitsAux
  simp [h]

theorem natToDigits_ge {n : Nat} (h : ¬ n < 10) :
    natToDigits n = natToDigits (n / 10) ++ [digitChar (n % 10)] := by
  unfold natToDigits
  conv =>
    lhs
    unfold natToDigitsAux
  simp only [h, dite_false, dif_neg]
  exact natToDigitsAux_append (n / 10) [digitChar (n % 10)]

theorem natToDigits_ne_nil (n : Nat) : natToDigits n ≠ [] := by
  by_cases h : n < 10
  · rw [natToDigits_lt h]
    simp
  · rw [natToDigits_ge h]
    simp

theorem natToDigits_all_digits (n : Nat) : ∀ c ∈ natToDigits n, is_digit c = true := by
  induction n using Nat.strong_induction_on with
  | _ n ih =>
    by_cases h : n < 10
    · rw [natToDigits_lt h]
      intro c hc
      rw [List.mem_singleton] at hc
      subst hc
      exact digitChar_is_digit h
    · rw [natToDigits_ge h]
      intro c hc
      rw [List.mem_append] at hc
      rcases hc with hc | hc
      · exact ih _ (Nat.div_lt_self (by omega) (by omega)) c hc
      · rw [List.mem_singleton] at hc
        subst hc
        exact digitChar_is_digit (Nat.mod_lt _ (by omega))

theorem valAcc_append (v : Int) (xs ys : List Char) :
    valAcc v (xs ++ ys) = valAcc (valAcc v xs) ys := by
  simp [valAcc, List.foldl_append]

theorem valAcc_natToDigits (n : Nat) : valAcc 0 (natToDigits n) = (n : Int) := by
  induction n using Nat.strong_induction_on with
  | _ n ih =>
    by_cases h : n < 10
    · rw [natToDigits_lt h]
      have ht := digitChar_toNat h
      simp only [valAcc, List.foldl_cons, List.foldl_nil, ht]
      have h0 : ('0'.toNat : Int) = 48 := rfl
      omega
    · have hlt : n / 10 < n := Nat.div_lt_self (by omega) (by omega)
      rw [natToDigits_ge h, valAcc_append, ih _ hlt]
      have ht := digitChar_toNat (Nat.mod_lt n (by omega))
      simp only [valAcc, List.foldl_cons, List.foldl_nil, ht]
      have h0 : ('0'.toNat : Int) = 48 := rfl
      omega

theorem dropWhile_eq_self_all {p : Char → Bool} {s : List Char}
    (h : ∀ c ∈ s, p c = false) : s.dropWhile p = s := by
  cases s with
  | nil => rfl
  | cons c cs =>
      rw [List.dropWhile_cons, h c (by simp)]
      simp

theorem trim_eq_self {s : List Char} (h : ∀ c ∈ s, is_space c = false) :
    trim s = s := by
  unfold trim ltrim rtrim
  rw [dropWhile_eq_self_all h,
    dropWhile_eq_self_all (fun c hc => h c (List.mem_reverse.mp hc)),
    List.reverse_reverse]

theorem is_digit_not_space {c : Char} (h : is_digit c = true) :
    is_space c = false := by
  by_contra hs
  rw [Bool.not_eq_false] at hs
  simp only [is_space, Bool.or_eq_true, decide_eq_true_eq] at hs
  rcases hs with ((((h1 | h1) | h1) | h1) | h1) | h1 <;> subst h1 <;>
    exact absurd h (by decide)

theorem is_digit_not_sign {c : Char} (h : is_digit c = true) :
    (c = '+' || c = '-') = false := by
  have hp : c ≠ '+' := fun h1 => by
    subst h1
    exact absurd h (by decide)
  have hm : c ≠ '-' := fun h1 => by
    subst h1
    exact absurd h (by decide)
  simp [hp, hm]

/-- C3: for every integral target type (unsigned meaning `min = 0`,
as for every C++ unsigned type) and every value `n` representable in
it, formatting `n` with `to_string` and parsing the text back with
`to_int` yields `Ok(n)`. -/
theorem int_roundtrip (t : IntType) (n : Int)
    (hs0 : t.signed = false → t.min = 0)
    (h1 : t.min ≤ n) (h2 : n ≤ t.max) :
    ∀ s, to_string_int n = .ok s → to_int t s = .ok n := by
  intro s hs
  have hseq : intToDecimal n = s := by
    simp only [to_string_int, expected.ok.injEq] at hs
    exact hs
  subst hseq
  by_cases hneg : n < 0
  · have hsg : t.signed = true := by
      cases hsgn : t.signed with
      | true => rfl
      | false =>
          have := hs0 hsgn
          omega
    have hdigs := natToDigits_all_digits n.natAbs
    have hne := natToDigits_ne_nil n.natAbs
    have hval : valAccNeg 0 (natToDigits n.natAbs) = n := by
      rw [valAccNeg_eq_neg, neg_zero, valAcc_natToDigits]
      omega
    obtain ⟨c2, cs, hcs⟩ := List.exists_cons_of_ne_nil hne
    rw [hcs] at hdigs hval
    have habs : intToDecimal n = '-' :: c2 :: cs := by
      rw [intToDecimal, if_pos hneg, hcs]
    have hnospace : ∀ c ∈ ('-' :: c2 :: cs), is_space c = false := by
      intro c hc
      rcases List.mem_cons.mp hc with rfl | hc2
      · decide
      · exact is_digit_not_space (hdigs c hc2)
    have htrim := trim_eq_self hnospace
    have hloop := digitLoop_neg_ok t ('-' :: c2 :: cs) hsg (c2 :: cs) 0 false 1
      hdigs (le_refl 0) (by rw [hval]; exact h1) (Or.inr (by simp))
    have hstep : parse_integer t ('-' :: c2 :: cs) =
        digitLoop t ('-' :: c2 :: cs) true 0 false 1 (c2 :: cs) := rfl
    rw [habs]
    simp only [to_int, htrim]
    rw [if_neg (by simp), hstep, hloop, hval]
  · have hn0 : (0 : Int) ≤ n := by omega
    have hdigs := natToDigits_all_digits n.toNat
    have hne := natToDigits_ne_nil n.toNat
    have hval : valAcc 0 (natToDigits n.toNat) = n := by
      rw [valAcc_natToDigits]
      omega
    obtain ⟨c2, cs, hcs⟩ := List.exists_cons_of_ne_nil hne
    rw [hcs] at hdigs hval
    have habs : intToDecimal n = c2 :: cs := by
      rw [intToDecimal, if_neg hneg, hcs]
    have hnospace : ∀ c ∈ (c2 :: cs), is_space c = false :=
      fun c hc => is_digit_not_space (hdigs c hc)
    have htrim := trim_eq_self hnospace
    have hsign : (c2 = '+' || c2 = '-') = false := is_digit_not_sign (hdigs c2 (by simp))
    have hloop := digitLoop_pos_ok t (c2 :: cs) (c2 :: cs) 0 false 0
      hdigs (le_refl 0) (by rw [hval]; exact h2) (Or.inr (by simp))
    have hstep : parse_integer t (c2 :: cs) =
        digitLoop t (c2 :: cs) false 0 false 0 (c2 :: cs) := by
      simp only [parse_integer, hsign]
      simp
    rw [habs]
    simp only [to_int, htrim]
    rw [if_neg (by simp), hstep, hloop, hval]

/-- C3 witness: the 32-bit signed minimum round-trips through
formatting and parsing. -/
theorem int_roundtrip_witness :
    to_string_int (-2147483648) = .ok (intToDecimal (-2147483648)) ∧
    to_int int32T (intToDecimal (-2147483648)) = .ok (-2147483648) :=
  ⟨rfl, int_roundtrip int32T (-2147483648) (by decide) (by decide) (by decide)
    (intToDecimal (-2147483648)) rfl⟩
